import Mathlib

/-!
Verification development for the `have` compiler front-end.

The development shallowly embeds:
* the type negotiator (`typer` file of the repository),
* the scope-emitting lexer (the simple `Lexer` that produces
  NEWSCOPE/ENDSCOPE/FOR/WORD tokens),
* the rich lexer (`lexer.go`).

Go's mutation through pointers is modelled by explicit state passing;
machine integers that only count characters or indent widths are
modelled as `Nat`; fallible Go functions return `Except`-like results,
with a dedicated constructor for Go runtime panics.
-/

namespace Have

/-! ## Type model

Modelled from the spec: the file of the repository that declares the
`Type` interface and its variants (`UnknownType`, `SimpleType`,
`PointerType`, `SliceType`, `ArrayType`, `MapType`, `ChanType`,
`FuncType`, `StructType`, `IfaceType`, `TupleType`, `CustomType`), the
`Kind()`/`String()`/`Known()` methods and the `TypeDecl`/`FuncDecl`
declarations is not under `src/`; only the type negotiator that calls
it is.  The variants and operations below follow §3.2 of the spec.
A method is reduced to the data the negotiator inspects: its name, the
canonical string of its signature (`FuncDecl.typ.String()`), and its
receiver discipline (`FuncDecl.PtrReceiver`). -/

inductive SimpleTypeID where
  | bool | int | float64 | complex128 | string | byte | rune
deriving DecidableEq

inductive ChanDir where
  | bidir | send | recv
deriving DecidableEq

structure Method where
  name : String
  sig : String
  ptrReceiver : Bool
deriving DecidableEq

inductive Typ where
  | unknown
  | simple (id : SimpleTypeID)
  | pointer (To : Typ)
  | slice (of : Typ)
  | array (size : Nat) (of : Typ)
  | mapT (key : Typ) (of : Typ)
  | chan (of : Typ) (dir : ChanDir)
  | funcT (args : List Typ) (results : List Typ)
  | structT (members : List (String × Typ))
  | iface (methods : List Method)
  | tuple (members : List Typ)
  | custom (name : String) (aliased : Typ) (methods : List Method)

/-- Modelled from the spec: the kind tags returned by `Type.Kind()`. -/
inductive Kind where
  | unknown | simple | pointer | slice | array | mapK | chan
  | funcK | structK | interfaceK | tuple | custom
deriving DecidableEq

def Typ.kind : Typ → Kind
  | .unknown => .unknown
  | .simple _ => .simple
  | .pointer _ => .pointer
  | .slice _ => .slice
  | .array _ _ => .array
  | .mapT _ _ => .mapK
  | .chan _ _ => .chan
  | .funcT _ _ => .funcK
  | .structT _ => .structK
  | .iface _ => .interfaceK
  | .tuple _ => .tuple
  | .custom _ _ _ => .custom

def SimpleTypeID.str : SimpleTypeID → String
  | .bool => "bool"
  | .int => "int"
  | .float64 => "float64"
  | .complex128 => "complex128"
  | .string => "string"
  | .byte => "byte"
  | .rune => "rune"

mutual

/-- Modelled from the spec: the canonical string form of a type
(`Type.String()`), "used for structural equality of unnamed types". -/
def Typ.str : Typ → String
  | .unknown => "<unknown>"
  | .simple id => id.str
  | .pointer To => "*" ++ To.str
  | .slice of => "[]" ++ of.str
  | .array size of => "[" ++ toString size ++ "]" ++ of.str
  | .mapT key of => "map[" ++ key.str ++ "]" ++ of.str
  | .chan of dir =>
    (match dir with
     | .bidir => "chan "
     | .send => "chan<- "
     | .recv => "<-chan ") ++ of.str
  | .funcT args results =>
    "func(" ++ Typ.strList args ++ ")(" ++ Typ.strList results ++ ")"
  | .structT members => "struct\x7b" ++ Typ.strMembers members ++ "\x7d"
  | .iface methods =>
    "interface\x7b" ++ "; ".intercalate (methods.map (fun m => m.name ++ " " ++ m.sig)) ++ "\x7d"
  | .tuple members => "(" ++ Typ.strList members ++ ")"
  | .custom name _ _ => name

/-- Comma-separated canonical strings of a list of types. -/
def Typ.strList : List Typ → String
  | [] => ""
  | [t] => Typ.str t
  | t :: ts => Typ.str t ++ ", " ++ Typ.strList ts

/-- Semicolon-separated struct member list. -/
def Typ.strMembers : List (String × Typ) → String
  | [] => ""
  | [m] => m.1 ++ " " ++ Typ.str m.2
  | m :: ms => m.1 ++ " " ++ Typ.str m.2 ++ "; " ++ Typ.strMembers ms

end

/-- Modelled from the spec: `known()` is "true unless UNKNOWN". -/
def Typ.known (t : Typ) : Bool := t.kind ≠ Kind.unknown

/-- `RootType` of the negotiator; the `CustomType.RootType()` method it
defers to is modelled from the spec ("root type — full transitive
unwrap"). -/
def RootType : Typ → Typ
  | .custom _ aliased _ => RootType aliased
  | t => t

/-- Implements the definition of underlying types from the Go spec. -/
def UnderlyingType : Typ → Typ
  | .custom _ aliased _ => aliased
  | t => t

/-- Implements the definition of named types from the Go spec. -/
def IsNamed (t : Typ) : Bool :=
  t.kind = Kind.custom ∨ t.kind = Kind.simple

def IsUnnamed (t : Typ) : Bool := !IsNamed t

/-- Tells if a type is an interface (works through named aliases). -/
def IsInterface (t : Typ) : Bool :=
  (RootType t).kind = Kind.interfaceK

/-- The method set the `Implements` check reads off the value type:
a CUSTOM's declared methods, an INTERFACE's method set, empty
otherwise. -/
def valueMethods : Typ → List Method
  | .custom _ _ methods => methods
  | .iface methods => methods
  | _ => []

/-- Tells whether value's methods are a subset of iface's methods.
The Go function type-asserts `RootType(iface).(*IfaceType)`; it is only
called when that assertion holds, and the non-interface case is mapped
to `false` here. -/
def Implements (ifaceT value : Typ) : Bool :=
  match RootType ifaceT with
  | .iface imethods =>
    let (ptr, value) :=
      match value with
      | .pointer To => (true, To)
      | v => (false, v)
    let vmethods := valueMethods value
    imethods.all (fun imet =>
      vmethods.any (fun met =>
        met.name = imet.name ∧ met.ptrReceiver = ptr ∧ met.sig = imet.sig))
  | _ => false

/-- Implements the definition of assignability from the Go spec. -/
def IsAssignable (To what : Typ) : Bool :=
  if IsInterface To then Implements To what
  else if IsNamed To ∧ IsNamed what then To.str = what.str
  else (UnderlyingType To).str = (UnderlyingType what).str

/-- Implements the definition of comparable operands from the Go spec. -/
def AreComparable (t1 t2 : Typ) : Bool :=
  if t1.kind = Kind.unknown ∨ t2.kind = Kind.unknown then false
  else if ¬IsAssignable t1 t2 ∨ ¬IsAssignable t2 t1 then false
  else true

/-- Implements the definition of ordered operands from the Go spec.
`none` models the Go `panic("todo")` that the source reaches for
comparable operands that are not both SIMPLE. -/
def AreOrdered (t1 t2 : Typ) : Option Bool :=
  if ¬AreComparable t1 t2 then some false
  else
    match t1, t2 with
    | .simple id1, .simple id2 =>
      if id1 ≠ id2 then some false
      else
        match id1 with
        | .int | .string => some true
        | _ => some false
    | _, _ => none

/-! ## AST expression universe

The expression nodes whose `Type`/`ApplyType`/`GuessType`
implementations live in the type negotiator source: the blank
expression, basic literals, the `nil` literal, and identifiers.
Each node's mutable recorded type is a field; `ApplyType` returns the
updated node instead of mutating in place. -/

/-- Modelled from the spec: a resolved variable (name plus type). -/
structure Variable where
  name : String
  typ : Typ

/-- Modelled from the spec: the object an identifier was bound to by
name resolution — a variable (`OBJECT_VAR`) or a type declaration
(`OBJECT_TYPE`). -/
inductive Object where
  | varObj (v : Variable)
  | typeObj (name : String) (typ : Typ)

/-- The literal token kinds `BasicLit.ApplyType`/`GuessType` dispatch
on (TOKEN_STR, TOKEN_INT, TOKEN_RUNE, TOKEN_FLOAT, TOKEN_IMAG,
TOKEN_TRUE, TOKEN_FALSE). -/
inductive LitKind where
  | str | int | rune | float | imag | trueLit | falseLit
deriving DecidableEq

inductive Expr where
  | blank
  | basicLit (kind : LitKind) (typ : Option Typ)
  | nilLit (typ : Option Typ)
  | ident (name : String) (obj : Object)

/-- `nonilTyp` of the negotiator: replace a nil type with UNKNOWN. -/
def nonilTyp : Option Typ → Typ
  | none => .unknown
  | some t => t

/-- The `Type()` method of each node.  `none` models a Go `nil` return
(`Ident.Type` returns nil when the identifier is not bound to a
variable). -/
def Expr.typeFn : Expr → Option Typ
  | .blank => some .unknown
  | .basicLit _ t => some (nonilTyp t)
  | .nilLit t => some (nonilTyp t)
  | .ident _ (.varObj v) => some v.typ
  | .ident _ _ => none

/-- The `GuessType()` method of each node; the second component models
the possibly-nil Go `Type` result. -/
def Expr.guessType : Expr → Bool × Option Typ
  | .blank => (false, none)
  | .basicLit kind _ =>
    match kind with
    | .str => (true, some (.simple .string))
    | .int => (true, some (.simple .int))
    | .float => (true, some (.simple .float64))
    | .imag => (true, some (.simple .complex128))
    | .trueLit | .falseLit => (true, some (.simple .bool))
    | .rune => (true, some (.simple .rune))
  | .nilLit _ => (false, some .unknown)
  | .ident _ _ => (false, none)

/-- Modelled from the spec: the numeric-kind predicate supplied by the
Type Model (`IsTypeNumeric`). -/
def IsTypeNumeric : Typ → Bool
  | .simple id =>
    match id with
    | .int | .float64 | .complex128 | .byte | .rune => true
    | _ => false
  | _ => false

/-- Modelled from the spec: the float-kind predicate supplied by the
Type Model (`IsTypeFloatKind`). -/
def IsTypeFloatKind : Typ → Bool
  | .simple .float64 => true
  | _ => false

/-- Modelled from the spec: the complex-kind predicate supplied by the
Type Model (`IsTypeComplexType`). -/
def IsTypeComplexType : Typ → Bool
  | .simple .complex128 => true
  | _ => false

/-- The `ApplyType(typ)` method of each node.  On success the returned
expression carries any newly recorded type; an `error` leaves the node
unchanged (the Go methods return before mutating on every error
path). -/
def Expr.applyType : Expr → Typ → Except String Expr
  | .blank, _ => .ok .blank
  | .basicLit kind t0, typ =>
    let actualType := RootType typ
    match actualType with
    | .simple id =>
      if (kind = .str ∧ id = .string)
          ∨ (kind = .int ∧ IsTypeNumeric actualType)
          ∨ (kind = .rune ∧ IsTypeNumeric actualType)
          ∨ (kind = .float ∧ (IsTypeFloatKind actualType ∨ IsTypeComplexType actualType))
          ∨ (kind = .imag ∧ IsTypeComplexType actualType)
          ∨ ((kind = .trueLit ∨ kind = .falseLit) ∧ id = .bool) then
        .ok (.basicLit kind (some typ))
      else
        let _ := t0
        .error "Can't use this literal for this type"
    | _ => .error ("Can't use this literal for type " ++ typ.str)
  | .nilLit _, typ =>
    match (RootType typ).kind with
    | .pointer | .interfaceK | .mapK | .slice | .funcK => .ok (.nilLit (some typ))
    | _ => .error ("Type " ++ typ.str ++ " can't be set to nil")
  | .ident name obj, typ =>
    match obj with
    | .varObj v =>
      if IsAssignable typ v.typ then .ok (.ident name obj)
      else
        .error ("Identifier " ++ name ++ " is of type " ++ v.typ.str ++
          ", can't assign type " ++ typ.str ++ " to it")
    | _ => .error ("Identifier " ++ name ++ " is not a variable")

/-! ## The negotiator core -/

/-- Result status of a negotiation; `panic` models a Go runtime panic
(nil dereference). -/
inductive Outcome where
  | ok
  | err (msg : String)
  | panic
deriving DecidableEq

/-- State after `NegotiateExprType`: the contents of the type slot
(`*varType`, mutated through the pointer), the value expression
(mutated through `ApplyType`), and the returned error status. -/
structure NegoResult where
  slot : Typ
  value : Expr
  outcome : Outcome

/-- Shared tail of `NegotiateExprType`: run `value.ApplyType(t)` with
the slot already holding `typ`. -/
def applyOutcome (typ : Typ) (value : Expr) (t : Typ) : NegoResult :=
  match value.applyType t with
  | .ok v2 => ⟨typ, v2, .ok⟩
  | .error e => ⟨typ, value, .err e⟩

/-- Continuation of `NegotiateExprType` after `typ` was chosen and
written into the slot (`*varType = typ`), with `vTyp` the value's
current type. -/
def negotiateApply (typ : Typ) (value : Expr) (vTyp : Typ) : NegoResult :=
  if ¬vTyp.known then
    if IsInterface typ then
      match value.guessType with
      | (true, some g) =>
        if ¬IsAssignable typ g then
          ⟨typ, value, .err ("Types " ++ typ.str ++ " and " ++ g.str ++ " are not assignable")⟩
        else applyOutcome typ value g
      | (true, none) =>
        -- IsAssignable inspects the guessed type, which is a nil Type
        ⟨typ, value, .panic⟩
      | (false, _) => applyOutcome typ value typ
    else applyOutcome typ value typ
  else
    if ¬IsAssignable typ vTyp then
      ⟨typ, value, .err ("Types " ++ typ.str ++ " and " ++ vTyp.str ++ " are not assignable")⟩
    else
      -- Run value.ApplyType with value's own type: ApplyType might do
      -- extra checks as side effects.
      applyOutcome typ value vTyp

/-- `NegotiateExprType(varType, value)`.  `varType` is the content of
the `*Type` slot (`none` models a nil content). -/
def negotiateExprType (varType : Option Typ) (value : Expr) : NegoResult :=
  let vt0 := nonilTyp varType
  match value.typeFn with
  | none =>
    -- value.Type() returned a nil Type; firstKnown (or the later
    -- value.Type().Known() test) dereferences it: runtime panic
    ⟨vt0, value, .panic⟩
  | some vTyp =>
    -- typ := firstKnown(*varType, value.Type())
    let typk : Option Typ :=
      if vt0.known then some vt0 else if vTyp.known then some vTyp else none
    match typk with
    | none =>
      match value.guessType with
      | (true, some g) =>
        if ¬g.known then ⟨vt0, value, .err "Too little information to infer types"⟩
        else negotiateApply g value vTyp
      | (true, none) =>
        -- guessedType.Known() dereferences a nil Type: runtime panic
        ⟨vt0, value, .panic⟩
      | (false, _) => ⟨vt0, value, .err "Too little information to infer types"⟩
    | some typ => negotiateApply typ value vTyp

/-- `SendStmt.NegotiateTypes` for `lhs <- rhs`: negotiate both sides
against fresh UNKNOWN slots, then check channel kind, direction, and
element assignability. -/
def sendStmtNegotiate (lhs rhs : Expr) : Outcome :=
  let r1 := negotiateExprType (some .unknown) lhs
  match r1.outcome with
  | .err e => .err e
  | .panic => .panic
  | .ok =>
    let r2 := negotiateExprType (some .unknown) rhs
    match r2.outcome with
    | .err e => .err e
    | .panic => .panic
    | .ok =>
      match RootType r1.slot with
      | .chan of dir =>
        if dir = ChanDir.recv then .err "Channel is receive-only"
        else if ¬IsAssignable of r2.slot then
          .err "Send value has to be assignable to channel's base type"
        else .ok
      | _ => .err "Not a chan used for sending"

/-! ## The scope-emitting lexer

Embedding of the simple lexer whose `Next` promotes indentation to
NEWSCOPE/ENDSCOPE tokens.  The Go `indentsStack` slice pushes and pops
at its end; it is modelled by a list whose head is the top of the
stack. -/

/-- `unicode.IsSpace` of the Go standard library, modelled on the
ASCII range (the white-space characters the source can meet there). -/
def isSpace (c : Char) : Bool :=
  c = ' ' ∨ c = '\t' ∨ c = '\n' ∨ c = '\x0b' ∨ c = '\x0c' ∨ c = '\r'

/-- `unicode.IsLetter` of the Go standard library, modelled on the
ASCII range. -/
def isLetter (c : Char) : Bool := c.isAlpha

/-- `unicode.IsNumber` of the Go standard library, modelled on the
ASCII range. -/
def isNumber (c : Char) : Bool := c.isDigit

namespace Scope

/-- Tokens of the scope-emitting lexer (TOKEN_EOF, TOKEN_NEWSCOPE,
TOKEN_ENDSCOPE, TOKEN_FOR, TOKEN_WORD). -/
inductive Tok where
  | eof | newscope | endscope | forT | word (s : String)
deriving DecidableEq

/-- Lexer state: remaining buffer, stack of opened indents (top at the
head), queue of postponed tokens. -/
structure St where
  buf : List Char
  indentsStack : List Nat
  queue : List Tok
deriving DecidableEq

/-- `skipWhiteChars`: consume whitespace other than newline, returning
the count of skipped characters and the rest of the buffer. -/
def skipWhiteChars : List Char → Nat × List Char
  | [] => (0, [])
  | c :: cs =>
    if isSpace c ∧ c ≠ '\n' then
      let p := skipWhiteChars cs
      (p.1 + 1, p.2)
    else (0, c :: cs)

theorem skipWhiteChars_len_le (buf : List Char) :
    (skipWhiteChars buf).2.length ≤ buf.length := by
  induction buf with
  | nil => simp [skipWhiteChars]
  | cons c cs ih =>
    simp only [skipWhiteChars]
    split
    · simpa using Nat.le_succ_of_le ih
    · simp

/-- The pop loop of a dedent: one ENDSCOPE is queued per stack entry
strictly greater than the new indent. -/
def popGreater (stack : List Nat) (indent : Nat) : List Tok × List Nat :=
  match stack with
  | top :: rest =>
    if top > indent then
      let p := popGreater rest indent
      (Tok.endscope :: p.1, p.2)
    else ([], top :: rest)
  | [] => ([], [])

theorem popGreater_length (stack : List Nat) (indent : Nat) :
    (popGreater stack indent).1.length + (popGreater stack indent).2.length
      = stack.length := by
  induction stack with
  | nil => simp [popGreater]
  | cons top rest ih =>
    simp only [popGreater]
    split
    · simpa [Nat.succ_add] using ih
    · simp

/-- `Lexer.Next` of the scope-emitting lexer. -/
def next (buf : List Char) (stack : List Nat) (queue : List Tok) :
    Except String (Tok × St) :=
  match queue with
  | t :: ts => .ok (t, ⟨buf, stack, ts⟩)
  | [] =>
    match buf with
    | [] =>
      -- queue one ENDSCOPE per remaining indent, clear the stack
      match List.replicate stack.length Tok.endscope with
      | [] => .ok (.eof, ⟨[], [], []⟩)
      | q :: qs => next [] [] (q :: qs)
    | ch :: cs =>
      if ch = '\n' then
        let indent := (skipWhiteChars cs).1
        match (skipWhiteChars cs).2 with
        | [] => next [] stack []
        | c1 :: cs1 =>
          if c1 = '\n' then
            -- whole line was just whitespace, ignore it
            next (skipWhiteChars cs).2 stack []
          else
            match stack with
            | [] => .ok (.newscope, ⟨c1 :: cs1, [indent], []⟩)
            | top :: rest =>
              if indent > top then
                .ok (.newscope, ⟨c1 :: cs1, indent :: top :: rest, []⟩)
              else
                let emitted := (popGreater (top :: rest) indent).1
                match (popGreater (top :: rest) indent).2 with
                | t2 :: rest2 =>
                  if t2 ≠ indent then .error "Bad indent"
                  else next (skipWhiteChars cs).2 (t2 :: rest2) emitted
                | [] => next (skipWhiteChars cs).2 [] emitted
      else if isSpace ch then
        next (skipWhiteChars (ch :: cs)).2 stack []
      else if isLetter ch then
        let w := (ch :: cs).takeWhile isLetter
        let rest := (ch :: cs).dropWhile isLetter
        if String.mk w = "for" then .ok (.forT, ⟨rest, stack, []⟩)
        else .ok (.word (String.mk w), ⟨rest, stack, []⟩)
      else .error "Don\u0027t know what to do"
termination_by 2 * buf.length + (if queue = [] then 1 else 0)
decreasing_by
  all_goals simp_wf
  all_goals try
    (have h1 := skipWhiteChars_len_le cs
     first
     | omega
     | (split <;> omega))
  all_goals
    (have h1 := skipWhiteChars_len_le cs
     simp_all [skipWhiteChars]
     omega)

/-- Every queued token is an ENDSCOPE: the queue is only ever fed by
dedents and by end-of-input stack draining. -/
def onlyEnds (queue : List Tok) : Prop := ∀ t ∈ queue, t = Tok.endscope

/-- Pull tokens until the end-of-input token; `fuel` bounds the number
of `Next` calls.  `none` when the lexer reports an error or the fuel
runs out; `some toks` is the complete accepted stream, ending with the
end-of-input token. -/
def run : Nat → St → Option (List Tok)
  | 0, _ => none
  | fuel + 1, s =>
    match next s.buf s.indentsStack s.queue with
    | .error _ => none
    | .ok (t, s2) =>
      if t = Tok.eof then some [Tok.eof]
      else
        match run fuel s2 with
        | some ts => some (t :: ts)
        | none => none

end Scope

/-! ## The rich lexer (lexer.go)

Full token inventory, pending-indent mechanism, operator alternatives.
The `indentsStack` field of the Go `Lexer` struct is never read or
written by this lexer's `Next` and is omitted from the state. -/

namespace Rich

/-- `TokenType` of lexer.go. -/
inductive TokenType where
  | eof | indent | forT | word | assign | equals | nequals | gt | lt
  | eqLt | eqGt | negate | num | str | dot | lparenth | rparenth
  | lbracket | rbracket | lbrace | rbrace | plus | plusAssign | increment
  | minus | minusAssign | decrement | varT | ifT | elseT | elifT | switchT
  | caseT | returnT | trueT | falseT | structT | mapT | funcT | typeT
  | inT | passT | packageT | breakT | continueT | fallthroughT | gotoT
  | interfaceT | nilT | mul | div | mulAssign | divAssign | shl | shr
  | send | comma | colon | semicolon | amp | pipe | percent | andT | orT
deriving DecidableEq

/-- A token of the rich lexer: type, byte offset, and the value (Go
stores nil or a string in the `interface\x7b\x7d` field). -/
structure Token where
  typ : TokenType
  offset : Nat
  value : Option String
deriving DecidableEq

/-- Rich lexer state: remaining buffer, the postponed indent token,
the count of processed characters, and the offset of the token being
scanned. -/
structure St where
  buf : List Char
  tokenIndent : Option Token
  skipped : Nat
  curTokenPos : Nat
deriving DecidableEq

/-- Result of the rich `Next`: a token with the successor state, an
error, or a Go runtime panic. -/
inductive NextRes where
  | tok (t : Token) (s : St)
  | err (msg : String)
  | panic
deriving DecidableEq

/-- Whitespace other than newline (the condition of both
`skipWhiteChars` loops). -/
def wsp (c : Char) : Bool := isSpace c ∧ c ≠ '\n'

/-- `skipWhiteChars` of lexer.go: the skipped whitespace and the rest
of the buffer. -/
def skipWhiteChars (buf : List Char) : List Char × List Char :=
  (buf.takeWhile wsp, buf.dropWhile wsp)

/-- The letter-or-digit condition of `scanWord`. -/
def wordChar (c : Char) : Bool := isLetter c ∨ isNumber c

/-- Result of `checkAlt`: the matched alternative with the advanced
buffer/skip count, no match, or a runtime panic. -/
inductive AltRes where
  | found (alt : String) (buf : List Char) (skipped : Nat)
  | noMatch
  | panic
deriving DecidableEq

/-- `checkAlt`: try the alternatives in order, consuming the first
match (first match, not longest).  Each try evaluates
`string(l.buf[:len(alt)])`; when `len(alt)` exceeds the buffer length
this slices past the buffer, and Go panics with "slice bounds out of
range" as soon as the slice exceeds the backing allocation (which is
exactly the buffer length whenever the buffer view ends at the end of
its allocation, e.g. the buffer left after scanning "ab " of the
four-rune input "ab =").  The out-of-bounds slice is modelled as a
panic. -/
def checkAlt (alts : List String) (buf : List Char) (skipped : Nat) : AltRes :=
  match alts with
  | [] => .noMatch
  | a :: rest =>
    if a.length > buf.length then .panic
    else if buf.take a.length = a.toList then
      .found a (buf.drop a.length) (skipped + a.length)
    else checkAlt rest buf skipped

/-- The string-literal body scan of `loadEscapedString`, after the
opening double quote was consumed: returns the raw content (escape
pairs included, as the Go code slices the buffer) and the rest after
the closing quote. -/
def loadEscapedBody : List Char → Except String (List Char × List Char)
  | [] => .error "Unterminated string literal"
  | '\\' :: rest =>
    match rest with
    | [] => .error "Unexpected file end - middle of a string literal"
    | e :: rest2 =>
      match loadEscapedBody rest2 with
      | .error msg => .error msg
      | .ok (content, after) => .ok ('\\' :: e :: content, after)
  | '"' :: rest => .ok ([], rest)
  | c :: rest =>
    match loadEscapedBody rest with
    | .error msg => .error msg
    | .ok (content, after) => .ok (c :: content, after)

/-- The keyword switch of the identifier branch of `Next`: the token
type and value for a scanned word. -/
def wordSwitch (w : String) : TokenType × Option String :=
  match w with
  | "for" => (.forT, none)
  | "pass" => (.passT, none)
  | "package" => (.packageT, none)
  | "var" => (.varT, none)
  | "if" => (.ifT, none)
  | "else" => (.elseT, none)
  | "elif" => (.elifT, none)
  | "switch" => (.switchT, none)
  | "case" => (.caseT, none)
  | "return" | "ret" => (.returnT, none)
  | "true" => (.trueT, none)
  | "false" => (.falseT, none)
  | "struct" => (.structT, none)
  | "interface" => (.interfaceT, none)
  | "map" => (.mapT, none)
  | "func" => (.funcT, none)
  | "type" => (.typeT, none)
  | "break" => (.breakT, none)
  | "continue" => (.continueT, none)
  | "fallthrough" => (.fallthroughT, none)
  | "goto" => (.gotoT, none)
  | "nil" => (.nilT, none)
  | _ => (.word, some w)

/-- The number condition of the spec-modelled `scanGoToken`. -/
def numChar (c : Char) : Bool := isNumber c ∨ c = '.' ∨ c = 'i'

theorem dropWhile_length_le {α : Type} (p : α → Bool) (l : List α) :
    (l.dropWhile p).length ≤ l.length := by
  induction l with
  | nil => simp
  | cons a l ih =>
    simp only [List.dropWhile]
    split
    · exact Nat.le_succ_of_le ih
    · simp

mutual

/-- `Lexer.Next` of lexer.go.  Records the current offset, then
returns a pending indent token unless the buffer continues with a
newline, then scans the next token. -/
def next (s : St) : NextRes :=
  let s1 : St := { s with curTokenPos := s.skipped }
  match s1.tokenIndent with
  | some t =>
    if s1.buf = [] ∨ s1.buf.head? ≠ some '\n' then
      .tok t { s1 with tokenIndent := none }
    else nextBody s1
  | none => nextBody s1
termination_by 2 * s.buf.length + 1

/-- The scanning part of the rich `Next` (everything after the
pending-indent check). -/
def nextBody (s : St) : NextRes :=
  match hbuf : s.buf with
  | [] => .tok ⟨.eof, s.curTokenPos, none⟩ s
  | ch :: cs =>
    if ch = '\n' then
      let ws := (skipWhiteChars cs).1
      let rest := (skipWhiteChars cs).2
      next { s with buf := rest, skipped := s.skipped + 1 + ws.length,
                    tokenIndent := some ⟨.indent, s.curTokenPos, some (String.mk ws)⟩ }
    else if isSpace ch then
      next { s with buf := (skipWhiteChars (ch :: cs)).2,
                    skipped := s.skipped + (skipWhiteChars (ch :: cs)).1.length }
    else if isLetter ch then
      let w := (ch :: cs).takeWhile wordChar
      let rest := (ch :: cs).dropWhile wordChar
      .tok ⟨(wordSwitch (String.mk w)).1, s.curTokenPos, (wordSwitch (String.mk w)).2⟩
        { s with buf := rest, skipped := s.skipped + w.length }
    else if ch = '=' then
      match checkAlt ["==", "="] (ch :: cs) s.skipped with
      | .panic => .panic
      | .found "=" buf2 sk2 =>
        .tok ⟨.assign, s.curTokenPos, some "="⟩ { s with buf := buf2, skipped := sk2 }
      | .found "==" buf2 sk2 =>
        .tok ⟨.equals, s.curTokenPos, some "=="⟩ { s with buf := buf2, skipped := sk2 }
      | _ => .err ("Don\u0027t know what to do, \u0027" ++ ch.toString ++ "\u0027")
    else if ch = '!' then
      match checkAlt ["!=", "!"] (ch :: cs) s.skipped with
      | .panic => .panic
      | .found "!=" buf2 sk2 =>
        .tok ⟨.nequals, s.curTokenPos, some "!="⟩ { s with buf := buf2, skipped := sk2 }
      | .found "!" buf2 sk2 =>
        .tok ⟨.negate, s.curTokenPos, some "!"⟩ { s with buf := buf2, skipped := sk2 }
      | _ => .err ("Don\u0027t know what to do, \u0027" ++ ch.toString ++ "\u0027")
    else if ch = '+' then
      match checkAlt ["++", "+=", "+"] (ch :: cs) s.skipped with
      | .panic => .panic
      | .found "+" buf2 sk2 =>
        .tok ⟨.plus, s.curTokenPos, some "+"⟩ { s with buf := buf2, skipped := sk2 }
      | .found "+=" buf2 sk2 =>
        .tok ⟨.plusAssign, s.curTokenPos, some "+="⟩ { s with buf := buf2, skipped := sk2 }
      | .found "++" buf2 sk2 =>
        .tok ⟨.increment, s.curTokenPos, some "++"⟩ { s with buf := buf2, skipped := sk2 }
      | _ => .err ("Don\u0027t know what to do, \u0027" ++ ch.toString ++ "\u0027")
    else if ch = '-' then
      match checkAlt ["--", "-=", "-"] (ch :: cs) s.skipped with
      | .panic => .panic
      | .found "-" buf2 sk2 =>
        .tok ⟨.minus, s.curTokenPos, some "-"⟩ { s with buf := buf2, skipped := sk2 }
      | .found "-=" buf2 sk2 =>
        .tok ⟨.minusAssign, s.curTokenPos, some "-="⟩ { s with buf := buf2, skipped := sk2 }
      | .found "--" buf2 sk2 =>
        .tok ⟨.decrement, s.curTokenPos, some "--"⟩ { s with buf := buf2, skipped := sk2 }
      | _ => .err ("Don\u0027t know what to do, \u0027" ++ ch.toString ++ "\u0027")
    else if ch = '<' then
      match checkAlt ["<<", "<-", "<=", "<"] (ch :: cs) s.skipped with
      | .panic => .panic
      | .found "<" buf2 sk2 =>
        .tok ⟨.lt, s.curTokenPos, some "<"⟩ { s with buf := buf2, skipped := sk2 }
      | .found "<-" buf2 sk2 =>
        .tok ⟨.send, s.curTokenPos, some "<-"⟩ { s with buf := buf2, skipped := sk2 }
      | .found "<<" buf2 sk2 =>
        .tok ⟨.shl, s.curTokenPos, some "<<"⟩ { s with buf := buf2, skipped := sk2 }
      | .found "<=" buf2 sk2 =>
        .tok ⟨.eqLt, s.curTokenPos, some "<="⟩ { s with buf := buf2, skipped := sk2 }
      | _ => .err ("Don\u0027t know what to do, \u0027" ++ ch.toString ++ "\u0027")
    else if ch = '>' then
      match checkAlt [">>", ">=", ">"] (ch :: cs) s.skipped with
      | .panic => .panic
      | .found ">" buf2 sk2 =>
        .tok ⟨.gt, s.curTokenPos, some ">"⟩ { s with buf := buf2, skipped := sk2 }
      | .found ">>" buf2 sk2 =>
        .tok ⟨.shr, s.curTokenPos, some ">>"⟩ { s with buf := buf2, skipped := sk2 }
      | .found ">=" buf2 sk2 =>
        .tok ⟨.eqGt, s.curTokenPos, some ">="⟩ { s with buf := buf2, skipped := sk2 }
      | _ => .err ("Don\u0027t know what to do, \u0027" ++ ch.toString ++ "\u0027")
    else if isNumber ch then
      -- scanGoToken/fromGoToken, modelled from the spec: numeric
      -- literals are delegated to the host number grammar and lumped
      -- into one NUM token carrying the literal text; the delegated
      -- scan is modelled as a maximal run of digits, dots and the
      -- imaginary suffix.
      let lit := (ch :: cs).takeWhile numChar
      let rest := (ch :: cs).dropWhile numChar
      .tok ⟨.num, s.curTokenPos, some (String.mk lit)⟩
        { s with buf := rest, skipped := s.skipped + lit.length }
    else if ch = '"' then
      match loadEscapedBody cs with
      | .error e => .err e
      | .ok (content, rest) =>
        .tok ⟨.str, s.curTokenPos, some (String.mk content)⟩
          { s with buf := rest, skipped := s.skipped + 1 + content.length + 1 }
    else if ch = '(' then
      .tok ⟨.lparenth, s.curTokenPos, none⟩ { s with buf := cs, skipped := s.skipped + 1 }
    else if ch = ')' then
      .tok ⟨.rparenth, s.curTokenPos, none⟩ { s with buf := cs, skipped := s.skipped + 1 }
    else if ch = '[' then
      .tok ⟨.lbracket, s.curTokenPos, none⟩ { s with buf := cs, skipped := s.skipped + 1 }
    else if ch = ']' then
      .tok ⟨.rbracket, s.curTokenPos, none⟩ { s with buf := cs, skipped := s.skipped + 1 }
    else if ch = '\x7b' then
      .tok ⟨.lbrace, s.curTokenPos, none⟩ { s with buf := cs, skipped := s.skipped + 1 }
    else if ch = '\x7d' then
      .tok ⟨.rbrace, s.curTokenPos, none⟩ { s with buf := cs, skipped := s.skipped + 1 }
    else if ch = '.' then
      .tok ⟨.dot, s.curTokenPos, none⟩ { s with buf := cs, skipped := s.skipped + 1 }
    else if ch = '*' then
      match checkAlt ["*=", "*"] (ch :: cs) s.skipped with
      | .panic => .panic
      | .found "*" buf2 sk2 =>
        .tok ⟨.mul, s.curTokenPos, some "*"⟩ { s with buf := buf2, skipped := sk2 }
      | .found "*=" buf2 sk2 =>
        .tok ⟨.mulAssign, s.curTokenPos, some "*="⟩ { s with buf := buf2, skipped := sk2 }
      | _ => .err ("Don\u0027t know what to do, \u0027" ++ ch.toString ++ "\u0027")
    else if ch = '/' then
      match checkAlt ["/=", "/"] (ch :: cs) s.skipped with
      | .panic => .panic
      | .found "/" buf2 sk2 =>
        .tok ⟨.div, s.curTokenPos, some "/"⟩ { s with buf := buf2, skipped := sk2 }
      | .found "/=" buf2 sk2 =>
        .tok ⟨.divAssign, s.curTokenPos, some "/="⟩ { s with buf := buf2, skipped := sk2 }
      | _ => .err ("Don\u0027t know what to do, \u0027" ++ ch.toString ++ "\u0027")
    else if ch = ',' then
      .tok ⟨.comma, s.curTokenPos, none⟩ { s with buf := cs, skipped := s.skipped + 1 }
    else if ch = ';' then
      .tok ⟨.semicolon, s.curTokenPos, none⟩ { s with buf := cs, skipped := s.skipped + 1 }
    else if ch = ':' then
      .tok ⟨.colon, s.curTokenPos, none⟩ { s with buf := cs, skipped := s.skipped + 1 }
    else if ch = '%' then
      .tok ⟨.percent, s.curTokenPos, some "%"⟩ { s with buf := cs, skipped := s.skipped + 1 }
    else if ch = '&' then
      match checkAlt ["&&", "&"] (ch :: cs) s.skipped with
      | .panic => .panic
      | .found "&&" buf2 sk2 =>
        .tok ⟨.andT, s.curTokenPos, some "&&"⟩ { s with buf := buf2, skipped := sk2 }
      | .found "&" buf2 sk2 =>
        .tok ⟨.amp, s.curTokenPos, some "&"⟩ { s with buf := buf2, skipped := sk2 }
      | _ => .err ("Don\u0027t know what to do, \u0027" ++ ch.toString ++ "\u0027")
    else if ch = '|' then
      match checkAlt ["||", "|"] (ch :: cs) s.skipped with
      | .panic => .panic
      | .found "||" buf2 sk2 =>
        .tok ⟨.orT, s.curTokenPos, some "||"⟩ { s with buf := buf2, skipped := sk2 }
      | .found "|" buf2 sk2 =>
        .tok ⟨.pipe, s.curTokenPos, some "|"⟩ { s with buf := buf2, skipped := sk2 }
      | _ => .err ("Don\u0027t know what to do, \u0027" ++ ch.toString ++ "\u0027")
    else
      .err ("Don\u0027t know what to do, \u0027" ++ ch.toString ++ "\u0027")
termination_by 2 * s.buf.length
decreasing_by
  all_goals simp_wf
  all_goals rw [hbuf]
  all_goals simp only [List.length_cons]
  · have h0 : (skipWhiteChars cs).2 = cs.dropWhile wsp := rfl
    rw [h0]
    have h1 := dropWhile_length_le wsp cs
    omega
  · have h1 : (skipWhiteChars (ch :: cs)).2 = (ch :: cs).dropWhile wsp := rfl
    rw [h1]
    have h2 : (ch :: cs).dropWhile wsp = cs.dropWhile wsp := by
      simp_all [List.dropWhile, wsp]
    rw [h2]
    have h3 := dropWhile_length_le wsp cs
    omega

end

end Rich

/-! ## Additional definitions used by the statements -/

/-- The named type `type I interface \x7b foo() \x7d`: a CUSTOM
aliasing a non-empty interface; its declaration carries no methods
(methods cannot be declared on an interface type, so a parsed program
always yields an empty declared-method set here). -/
def namedIfaceI : Typ := .custom "I" (.iface [⟨"foo", "func()()", false⟩]) []

/-- Refinement statement, following the spec words for `Ordered`:
both SIMPLE of the same id, that id being int or string. -/
def specOrderedSimple (t1 t2 : Typ) : Bool :=
  match t1, t2 with
  | .simple id1, .simple id2 =>
    id1 = id2 ∧ (id1 = SimpleTypeID.int ∨ id1 = SimpleTypeID.string)
  | _, _ => false

/-- The keyword strings the rich lexer actually recognizes: the spec
list minus `in` (TOKEN_IN exists but no switch case produces it) plus
the undocumented alias `ret` for `return`. -/
def Rich.keywordStrings : List String :=
  ["for", "pass", "package", "var", "if", "else", "elif", "switch", "case",
   "return", "ret", "true", "false", "struct", "interface", "map", "func",
   "type", "break", "continue", "fallthrough", "goto", "nil"]

/-! ## Negotiator lemmas -/

theorem applyType_cases (value : Expr) (t : Typ) (v2 : Expr)
    (h : value.applyType t = .ok v2) :
    ∀ vt, v2.typeFn = some vt →
      (vt = t ∨ (v2 = value ∧ value.typeFn = some vt)) := by
  cases value with
  | blank =>
    simp [Expr.applyType] at h
    subst h
    intro vt htf
    exact Or.inr ⟨rfl, htf⟩
  | basicLit kind t0 =>
    simp only [Expr.applyType] at h
    split at h
    · split at h
      · simp at h
        subst h
        intro vt htf
        simp [Expr.typeFn, nonilTyp] at htf
        exact Or.inl htf.symm
      · simp at h
    · simp at h
  | nilLit t0 =>
    simp only [Expr.applyType] at h
    split at h
    all_goals simp at h
    all_goals subst h
    all_goals intro vt htf
    all_goals simp [Expr.typeFn, nonilTyp] at htf
    all_goals exact Or.inl htf.symm
  | ident name obj =>
    simp only [Expr.applyType] at h
    match obj with
    | .varObj v =>
      simp only [] at h
      split at h
      · simp at h
        subst h
        intro vt htf
        exact Or.inr ⟨rfl, htf⟩
      · simp at h
    | .typeObj n ty => simp at h

theorem applyOutcome_post (typ : Typ) (value : Expr) (t : Typ) (r : NegoResult)
    (h : applyOutcome typ value t = r) (hok : r.outcome = .ok) :
    r.slot = typ ∧ ∃ v2, value.applyType t = .ok v2 ∧ r.value = v2 := by
  unfold applyOutcome at h
  cases happ : value.applyType t with
  | ok v2 =>
    rw [happ] at h
    subst h
    exact ⟨rfl, v2, rfl, rfl⟩
  | error e =>
    rw [happ] at h
    subst h
    simp at hok

theorem negotiateApply_post (typ : Typ) (value : Expr) (vTyp : Typ) (r : NegoResult)
    (h : negotiateApply typ value vTyp = r) (hok : r.outcome = .ok)
    (htk : typ.known = true) (htf0 : value.typeFn = some vTyp) :
    r.slot.known = true ∧
    (∀ vt, r.value.typeFn = some vt → vt.known = true →
      IsAssignable r.slot r.slot = true → IsAssignable r.slot vt = true) := by
  unfold negotiateApply at h
  by_cases hvk : vTyp.known = true
  · simp only [hvk] at h
    simp at h
    split at h
    · subst h
      simp at hok
    · rename_i hass
      obtain ⟨hslot, v2, happ, hval⟩ := applyOutcome_post typ value vTyp r h hok
      subst hslot
      refine ⟨htk, ?_⟩
      intro vt htf hk hself
      rw [hval] at htf
      rcases applyType_cases value vTyp v2 happ vt htf with rfl | ⟨hv2, horig⟩
      · simpa using hass
      · rw [htf0] at horig
        cases horig
        simpa using hass
  · simp only [Bool.not_eq_true] at hvk
    simp only [hvk] at h
    simp at h
    split at h
    · -- interface branch
      split at h
      · -- guess ok with a non-nil type
        rename_i g hg
        split at h
        · subst h
          simp at hok
        · rename_i hass
          obtain ⟨hslot, v2, happ, hval⟩ := applyOutcome_post typ value g r h hok
          subst hslot
          refine ⟨htk, ?_⟩
          intro vt htf hk hself
          rw [hval] at htf
          rcases applyType_cases value g v2 happ vt htf with rfl | ⟨hv2, horig⟩
          · simpa using hass
          · rw [htf0] at horig
            cases horig
            rw [hvk] at hk
            cases hk
      · -- guess ok with a nil type: panic
        subst h
        simp at hok
      · -- guess failed
        obtain ⟨hslot, v2, happ, hval⟩ := applyOutcome_post typ value typ r h hok
        refine ⟨by rw [hslot]; exact htk, ?_⟩
        intro vt htf hk hself
        rw [hval] at htf
        rw [hslot] at hself ⊢
        rcases applyType_cases value typ v2 happ vt htf with rfl | ⟨hv2, horig⟩
        · exact hself
        · rw [htf0] at horig
          cases horig
          rw [hvk] at hk
          cases hk
    · obtain ⟨hslot, v2, happ, hval⟩ := applyOutcome_post typ value typ r h hok
      refine ⟨by rw [hslot]; exact htk, ?_⟩
      intro vt htf hk hself
      rw [hval] at htf
      rw [hslot] at hself ⊢
      rcases applyType_cases value typ v2 happ vt htf with rfl | ⟨hv2, horig⟩
      · exact hself
      · rw [htf0] at horig
        cases horig
        rw [hvk] at hk
        cases hk

/-- C1 (amended): after a successful `NegotiateExprType` the slot
always holds a `known()` type; and `IsAssignable(slot, value.Type())`
holds whenever the value ends with a known type and the negotiated
slot type is self-assignable.  (The original universal claim fails:
the blank expression keeps the UNKNOWN type, see the counterexample,
and a nil literal can end with exactly an interface slot type whose
self-assignability fails.) -/
theorem negotiate_chosen_known (varType : Option Typ) (value : Expr) (r : NegoResult)
    (h : negotiateExprType varType value = r) (hok : r.outcome = .ok) :
    r.slot.known = true ∧
    (∀ vt, r.value.typeFn = some vt → vt.known = true →
      IsAssignable r.slot r.slot = true → IsAssignable r.slot vt = true) := by
  unfold negotiateExprType at h
  cases htf : value.typeFn with
  | none =>
    rw [htf] at h
    subst h
    simp at hok
  | some vTyp =>
    rw [htf] at h
    simp only [] at h
    by_cases h1 : (nonilTyp varType).known = true
    · simp only [h1, if_true] at h
      exact negotiateApply_post _ value vTyp r h hok h1 htf
    · simp only [Bool.not_eq_true] at h1
      simp only [h1] at h
      simp at h
      by_cases h2 : vTyp.known = true
      · simp only [h2, if_true] at h
        exact negotiateApply_post _ value vTyp r h hok h2 htf
      · simp only [Bool.not_eq_true] at h2
        simp only [h2] at h
        simp at h
        split at h
        · rename_i g hg
          split at h
          · subst h
            simp at hok
          · rename_i hgk
            exact negotiateApply_post g value vTyp r h hok (by simp_all) htf
        · subst h
          simp at hok
        · subst h
          simp at hok

/-- Witness for C1 (amended) at `var x int = 42`. -/
theorem negotiate_chosen_known_witness :
    (negotiateExprType (some (.simple .int)) (.basicLit .int none)).slot.known = true ∧
    IsAssignable (negotiateExprType (some (.simple .int)) (.basicLit .int none)).slot
      (.simple .int) = true := by
  have h := negotiate_chosen_known (some (.simple .int)) (.basicLit .int none) _ rfl rfl
  exact ⟨h.1, h.2 (.simple .int) rfl rfl rfl⟩

/-- C1 counterexample: negotiating an `int` slot against the blank
expression succeeds, yet the blank expression still reports the
UNKNOWN type and `IsAssignable(int, UNKNOWN)` is false. -/
theorem negotiate_blank_counterexample :
    negotiateExprType (some (.simple .int)) .blank = ⟨.simple .int, .blank, .ok⟩ ∧
    Expr.blank.typeFn = some Typ.unknown ∧
    IsAssignable (.simple .int) .unknown = false := ⟨rfl, rfl, rfl⟩

/-- C2: when the slot holds an interface type and the value type is
not yet known, a successful guess `g` goes through exactly this
dispatch: the negotiator REQUIRES `IsAssignable(slot, g)` — a
non-assignable guess is the "not assignable" error — and then applies
`g` (not the interface type) to the value, propagating any
`ApplyType(g)` failure; in every outcome the slot keeps the interface
type. -/
theorem negotiate_interface_keeps_guess (slotTyp : Typ) (value : Expr) (vt g : Typ)
    (hk : slotTyp.known = true) (hi : IsInterface slotTyp = true)
    (htf : value.typeFn = some vt) (hvk : vt.known = false)
    (hg : value.guessType = (true, some g)) :
    negotiateExprType (some slotTyp) value =
      (if IsAssignable slotTyp g then
        (match value.applyType g with
         | .ok value2 => ⟨slotTyp, value2, .ok⟩
         | .error e => ⟨slotTyp, value, .err e⟩)
      else
        ⟨slotTyp, value,
          .err ("Types " ++ slotTyp.str ++ " and " ++ g.str ++ " are not assignable")⟩) := by
  unfold negotiateExprType negotiateApply applyOutcome
  simp only [nonilTyp, hk, hi, htf, hvk, hg]
  by_cases ha : IsAssignable slotTyp g = true
  · simp [ha, hi]
  · simp only [Bool.not_eq_true] at ha
    simp [ha, hi]

/-- Witness for C2: at `var x: SomeInterface = 42` with the empty
interface the literal ends with its guessed numeric type `int`, not
with the interface type, and negotiation succeeds; at the non-empty
interface `I` the same literal's guess is not assignable and the
negotiation fails, slot still holding `I`. -/
theorem negotiate_interface_keeps_guess_witness :
    (negotiateExprType (some (.iface [])) (.basicLit .int none)
      = ⟨.iface [], .basicLit .int (some (.simple .int)), .ok⟩) ∧
    (negotiateExprType (some namedIfaceI) (.basicLit .int none)
      = ⟨namedIfaceI, .basicLit .int none,
          .err "Types I and int are not assignable"⟩) := by
  constructor
  · have h := negotiate_interface_keeps_guess (.iface []) (.basicLit .int none) .unknown
      (.simple .int) rfl rfl rfl rfl rfl
    simpa using h
  · have h := negotiate_interface_keeps_guess namedIfaceI (.basicLit .int none) .unknown
      (.simple .int) rfl rfl rfl rfl rfl
    simpa using h

/-- C7: once both sides of `ch <- v` negotiate successfully,
`SendStmt.NegotiateTypes` fails unless the left root type is CHAN,
fails with "Channel is receive-only" on a receive-only channel, fails
when the right type is not assignable to the element type, and
succeeds otherwise. -/
theorem sendStmt_spec (lhs rhs : Expr) (lt rt : Typ) (lhs2 rhs2 : Expr)
    (hl : negotiateExprType (some .unknown) lhs = ⟨lt, lhs2, .ok⟩)
    (hr : negotiateExprType (some .unknown) rhs = ⟨rt, rhs2, .ok⟩) :
    sendStmtNegotiate lhs rhs =
      (match RootType lt with
      | .chan of dir =>
        if dir = ChanDir.recv then .err "Channel is receive-only"
        else if ¬IsAssignable of rt then
          .err "Send value has to be assignable to channel's base type"
        else .ok
      | _ => .err "Not a chan used for sending") := by
  unfold sendStmtNegotiate
  rw [hl, hr]

/-- Witness for C7: `ch <- x` with `ch` a receive-only int channel
fails with "Channel is receive-only". -/
theorem sendStmt_spec_witness :
    sendStmtNegotiate (.ident "ch" (.varObj ⟨"ch", .chan (.simple .int) .recv⟩))
      (.ident "x" (.varObj ⟨"x", .simple .int⟩)) = .err "Channel is receive-only" := by
  have h := sendStmt_spec (.ident "ch" (.varObj ⟨"ch", .chan (.simple .int) .recv⟩))
    (.ident "x" (.varObj ⟨"x", .simple .int⟩))
    (.chan (.simple .int) .recv) (.simple .int)
    (.ident "ch" (.varObj ⟨"ch", .chan (.simple .int) .recv⟩))
    (.ident "x" (.varObj ⟨"x", .simple .int⟩)) rfl rfl
  exact h

/-- C10: when the value type is already known and the "not assignable"
error is returned, the slot has already been overwritten with the
negotiated type `typ` and is not restored. -/
theorem negotiate_err_overwrites_slot (varType : Option Typ) (value : Expr) (vt typ : Typ)
    (htf : value.typeFn = some vt) (hvk : vt.known = true)
    (htyp : typ = if (nonilTyp varType).known then nonilTyp varType else vt)
    (hna : IsAssignable typ vt = false) :
    negotiateExprType varType value =
      ⟨typ, value, .err ("Types " ++ typ.str ++ " and " ++ vt.str ++ " are not assignable")⟩ := by
  unfold negotiateExprType negotiateApply
  by_cases h1 : (nonilTyp varType).known = true
  · rw [h1] at htyp
    simp at htyp
    subst htyp
    simp [htf, h1, hvk, hna]
  · simp only [Bool.not_eq_true] at h1
    rw [h1] at htyp
    simp at htyp
    subst htyp
    simp [htf, h1, hvk, hna]

/-- Witness for C10: a nil slot negotiated against an identifier of
the named interface type `I` (whose self-assignability fails) ends in
the "not assignable" error with the slot mutated from UNKNOWN to `I`. -/
theorem negotiate_err_overwrites_slot_witness :
    negotiateExprType none (.ident "x" (.varObj ⟨"x", namedIfaceI⟩))
      = ⟨namedIfaceI, .ident "x" (.varObj ⟨"x", namedIfaceI⟩),
          .err "Types I and I are not assignable"⟩ ∧
    nonilTyp none ≠ namedIfaceI := by
  constructor
  · have h := negotiate_err_overwrites_slot none (.ident "x" (.varObj ⟨"x", namedIfaceI⟩))
      namedIfaceI namedIfaceI rfl rfl rfl rfl
    exact h
  · intro hcontra
    cases hcontra

/-- C8 counterexample: the known named type `I` aliasing a non-empty
interface is not assignable to itself — `Implements` looks up the
required method in the CUSTOM declaration's (empty) method set. -/
theorem assignable_not_reflexive :
    namedIfaceI.known = true ∧ IsAssignable namedIfaceI namedIfaceI = false := ⟨rfl, rfl⟩

/-- C8 (amended): `IsAssignable(t, t)` holds for every known type `t`
that is not an interface type: for named types by equality of the
canonical strings, otherwise by equality of the underlying canonical
strings.  (For interface types reflexivity can fail, see the
counterexample.) -/
theorem assignable_refl_non_iface (t : Typ) (hk : t.known = true)
    (hi : IsInterface t = false) : IsAssignable t t = true := by
  simp [IsAssignable, hi]

/-- Witness for C8 (amended) at `int`. -/
theorem assignable_refl_non_iface_witness :
    IsAssignable (.simple .int) (.simple .int) = true :=
  assignable_refl_non_iface (.simple .int) rfl rfl

/-- C6 counterexample: two identical unnamed slice types are
comparable, and `AreOrdered` panics on them (the `panic("todo")`
branch, modelled as `none`) instead of returning false. -/
theorem areOrdered_counterexample :
    AreComparable (.slice (.simple .int)) (.slice (.simple .int)) = true ∧
    AreOrdered (.slice (.simple .int)) (.slice (.simple .int)) = none := ⟨rfl, rfl⟩

/-- C6 (amended): `AreOrdered` returns true iff the operands are
comparable and both SIMPLE of the same id, that id being int or
string; but on comparable operands that are not both SIMPLE it does
not return false — it panics (`none`). -/
theorem areOrdered_spec (t1 t2 : Typ) :
    (AreOrdered t1 t2 = some true ↔
      (AreComparable t1 t2 = true ∧ specOrderedSimple t1 t2 = true)) ∧
    (AreOrdered t1 t2 = none ↔
      (AreComparable t1 t2 = true ∧
        ¬(t1.kind = Kind.simple ∧ t2.kind = Kind.simple))) := by
  by_cases hc : AreComparable t1 t2 = true
  · cases t1 <;> cases t2 <;>
      simp_all [AreOrdered, specOrderedSimple, Typ.kind] <;>
      (rename_i id1 id2; revert hc; cases id1 <;> cases id2 <;> decide)
  · simp_all [AreOrdered]

/-! ## Scope-lexer theorems -/

namespace Scope

theorem onlyEnds_nil : onlyEnds [] := fun x hx => absurd hx (List.not_mem_nil x)

theorem popGreater_onlyEnds (stack : List Nat) (indent : Nat) :
    ∀ t ∈ (popGreater stack indent).1, t = Tok.endscope := by
  induction stack with
  | nil => simp [popGreater]
  | cons top rest ih =>
    simp only [popGreater]
    split
    · intro t ht
      rcases List.mem_cons.mp ht with h | h
      · exact h
      · exact ih t h
    · simp

theorem next_step (buf : List Char) (stack : List Nat) (queue : List Tok) :
    ∀ (t : Tok) (s2 : St), onlyEnds queue → next buf stack queue = .ok (t, s2) →
      onlyEnds s2.queue ∧
      stack.length + queue.length + (if t = Tok.newscope then 1 else 0)
        = s2.indentsStack.length + s2.queue.length + (if t = Tok.endscope then 1 else 0) ∧
      (t = Tok.eof → stack.length + queue.length = 0) := by
  induction buf, stack, queue using next.induct with
  | case1 buf stack t0 ts =>
    intro t s2 hq h
    rw [next.eq_def] at h
    simp at h
    obtain ⟨rfl, rfl⟩ := h
    have ht0 : t0 = Tok.endscope := hq t0 (by simp)
    subst ht0
    exact ⟨fun x hx => hq x (List.mem_cons_of_mem _ hx), by simp; omega, by simp⟩
  | case2 stack hrep =>
    intro t s2 hq h
    rw [next.eq_def] at h
    simp [hrep] at h
    obtain ⟨rfl, rfl⟩ := h
    have hlen : stack.length = 0 := by simpa using congrArg List.length hrep
    exact ⟨onlyEnds_nil, by simp [hlen], by simp [hlen]⟩
  | case3 stack q qs hrep ih =>
    intro t s2 hq h
    rw [next.eq_def] at h
    simp [hrep] at h
    have hq2 : onlyEnds (q :: qs) := by
      intro x hx
      exact List.eq_of_mem_replicate (hrep ▸ hx)
    obtain ⟨h1, h2, h3⟩ := ih t s2 hq2 h
    have hlen : (q :: qs).length = stack.length := by
      simpa using (congrArg List.length hrep).symm
    refine ⟨h1, ?_, fun he => ?_⟩
    · simp only [List.length_cons, List.length_nil] at h2 hlen ⊢
      omega
    · have h4 := h3 he
      simp only [List.length_cons, List.length_nil] at h4 hlen ⊢
      omega
  | case4 stack cs hskip ih =>
    intro t s2 hq h
    rw [next.eq_def] at h
    simp [hskip] at h
    obtain ⟨h1, h2, h3⟩ := ih t s2 onlyEnds_nil h
    refine ⟨h1, ?_, fun he => by simpa using h3 he⟩
    simpa using h2
  | case5 stack cs cs1 hskip ih =>
    intro t s2 hq h
    rw [next.eq_def] at h
    simp [hskip] at h
    obtain ⟨h1, h2, h3⟩ := ih t s2 onlyEnds_nil (by rw [hskip]; exact h)
    refine ⟨h1, ?_, fun he => by simpa using h3 he⟩
    simpa using h2
  | case6 cs c1 cs1 hskip hc1 =>
    intro t s2 hq h
    rw [next.eq_def] at h
    simp [hskip, hc1] at h
    obtain ⟨rfl, rfl⟩ := h
    exact ⟨onlyEnds_nil, by simp, by simp⟩
  | case7 cs indent c1 cs1 hskip hc1 top rest hgt =>
    intro t s2 hq h
    rw [next.eq_def] at h
    simp [hskip, hc1, hgt] at h
    obtain ⟨rfl, rfl⟩ := h
    exact ⟨onlyEnds_nil, by simp, by simp⟩
  | case8 cs indent c1 cs1 hskip hc1 top rest hle top1 rest1 hpop hne =>
    intro t s2 hq h
    rw [next.eq_def] at h
    simp [hskip, hc1, hle, hpop, hne] at h
  | case9 cs indent c1 cs1 hskip hc1 top rest hle emitted top1 rest1 hpop heq ih =>
    intro t s2 hq h
    rw [next.eq_def] at h
    simp [hskip, hc1, hle, hpop, heq] at h
    have hq2 : onlyEnds (popGreater (top :: rest) ((skipWhiteChars cs).1)).1 :=
      fun x hx => popGreater_onlyEnds _ _ x hx
    obtain ⟨h1, h2, h3⟩ := ih t s2 hq2 (by rw [hskip]; exact h)
    have hemit : emitted = (popGreater (top :: rest) ((skipWhiteChars cs).1)).1 := rfl
    rw [hemit] at h2 h3
    have hlen := popGreater_length (top :: rest) ((skipWhiteChars cs).1)
    rw [hpop] at hlen
    refine ⟨h1, ?_, fun he => ?_⟩
    · simp only [List.length_cons, List.length_nil] at h2 hlen ⊢
      omega
    · have h4 := h3 he
      simp only [List.length_cons, List.length_nil] at h4 hlen ⊢
      omega
  | case10 cs indent c1 cs1 hskip hc1 top rest hle emitted hpop ih =>
    intro t s2 hq h
    rw [next.eq_def] at h
    simp [hskip, hc1, hle, hpop] at h
    have hq2 : onlyEnds (popGreater (top :: rest) ((skipWhiteChars cs).1)).1 :=
      fun x hx => popGreater_onlyEnds _ _ x hx
    obtain ⟨h1, h2, h3⟩ := ih t s2 hq2 (by rw [hskip]; exact h)
    have hemit : emitted = (popGreater (top :: rest) ((skipWhiteChars cs).1)).1 := rfl
    rw [hemit] at h2 h3
    have hlen := popGreater_length (top :: rest) ((skipWhiteChars cs).1)
    rw [hpop] at hlen
    refine ⟨h1, ?_, fun he => ?_⟩
    · simp only [List.length_cons, List.length_nil] at h2 hlen ⊢
      omega
    · have h4 := h3 he
      simp only [List.length_cons, List.length_nil] at h4 hlen ⊢
      omega
  | case11 stack c cs hc hsp ih =>
    intro t s2 hq h
    rw [next.eq_def] at h
    simp [hc, hsp] at h
    obtain ⟨h1, h2, h3⟩ := ih t s2 onlyEnds_nil h
    refine ⟨h1, ?_, fun he => by simpa using h3 he⟩
    simpa using h2
  | case12 stack c cs hc hsp hl w hfor =>
    intro t s2 hq h
    rw [next.eq_def] at h
    have hw : w = c :: List.takeWhile isLetter cs := by
      rw [show w = List.takeWhile isLetter (c :: cs) from rfl]
      simp [List.takeWhile_cons, hl]
    rw [hw] at hfor
    simp [hc, hsp, hl, hfor] at h
    obtain ⟨rfl, rfl⟩ := h
    exact ⟨onlyEnds_nil, by simp, by simp⟩
  | case13 stack c cs hc hsp hl w hfor =>
    intro t s2 hq h
    rw [next.eq_def] at h
    have hw : w = c :: List.takeWhile isLetter cs := by
      rw [show w = List.takeWhile isLetter (c :: cs) from rfl]
      simp [List.takeWhile_cons, hl]
    rw [hw] at hfor
    simp [hc, hsp, hl, hfor] at h
    obtain ⟨rfl, rfl⟩ := h
    exact ⟨onlyEnds_nil, by simp, by simp⟩
  | case14 stack c cs hc hsp hl =>
    intro t s2 hq h
    rw [next.eq_def] at h
    simp [hc, hsp, hl] at h

theorem run_count (fuel : Nat) :
    ∀ (s : St) (ts : List Tok), onlyEnds s.queue → run fuel s = some ts →
      ts.count Tok.endscope
        = ts.count Tok.newscope + s.indentsStack.length + s.queue.length := by
  induction fuel with
  | zero =>
    intro s ts hq h
    simp [run] at h
  | succ fuel ih =>
    intro s ts hq h
    rw [run] at h
    cases hnext : next s.buf s.indentsStack s.queue with
    | error e =>
      rw [hnext] at h
      simp at h
    | ok p =>
      obtain ⟨t, s2⟩ := p
      rw [hnext] at h
      obtain ⟨h1, h2, h3⟩ := next_step s.buf s.indentsStack s.queue t s2 hq hnext
      by_cases ht : t = Tok.eof
      · subst ht
        simp at h
        subst h
        have h0 := h3 rfl
        simp [List.count_cons]
        omega
      · simp [ht] at h
        cases hrun : run fuel s2 with
        | none =>
          rw [hrun] at h
          simp at h
        | some ts2 =>
          rw [hrun] at h
          simp at h
          subst h
          have ihc := ih s2 ts2 h1 hrun
          simp [List.count_cons]
          omega

/-- C4: for every input accepted by the scope-emitting lexer (driven
to its end-of-input token without error), the complete token stream
contains equal counts of NEWSCOPE and ENDSCOPE tokens. -/
theorem scope_stream_balanced (buf : List Char) (fuel : Nat) (ts : List Tok)
    (h : run fuel ⟨buf, [], []⟩ = some ts) :
    ts.count Tok.newscope = ts.count Tok.endscope := by
  have hc := run_count fuel ⟨buf, [], []⟩ ts onlyEnds_nil h
  simp at hc
  omega

/-- Witness for C4 at the accepted source `"\n  for"`, whose stream is
NEWSCOPE, FOR, ENDSCOPE, end-of-input. -/
theorem scope_stream_balanced_witness :
    ([Tok.newscope, Tok.forT, Tok.endscope, Tok.eof] : List Tok).count Tok.newscope
      = ([Tok.newscope, Tok.forT, Tok.endscope, Tok.eof] : List Tok).count Tok.endscope :=
  scope_stream_balanced "\n  for".toList 12 _
    (by simp [run, next, skipWhiteChars, isSpace, isLetter, popGreater,
      List.takeWhile, List.dropWhile, List.replicate])

/-- C5: on a line that dedents to a width such that, after popping all
stack entries strictly greater than it, the stack is non-empty and its
top differs from the width, `Next` fails with "Bad indent". -/
theorem bad_indent_err (buf : List Char) (stack : List Nat) (cs : List Char)
    (c1 : Char) (cs1 : List Char) (top : Nat) (rest : List Nat)
    (top1 : Nat) (rest1 : List Nat)
    (hbuf : buf = '\n' :: cs)
    (hskip : (skipWhiteChars cs).2 = c1 :: cs1)
    (hc1 : c1 ≠ '\n')
    (hstack : stack = top :: rest)
    (hle : ¬(skipWhiteChars cs).1 > top)
    (hpop : (popGreater stack ((skipWhiteChars cs).1)).2 = top1 :: rest1)
    (hne : top1 ≠ (skipWhiteChars cs).1) :
    next buf stack [] = .error "Bad indent" := by
  subst hbuf hstack
  rw [next.eq_def]
  simp [hskip, hc1, hle, hpop, hne]

/-- Witness for C5: widths 2 then 6 are open and the next line dedents
to width 4; the pop removes 6, the remaining top 2 differs from 4, and
`Next` fails with "Bad indent". -/
theorem bad_indent_err_witness :
    next "\n    c".toList [6, 2] [] = .error "Bad indent" :=
  bad_indent_err "\n    c".toList [6, 2] "    c".toList 'c' [] 6 [2] 2 []
    (by simp) (by simp [skipWhiteChars, isSpace]) (by simp) rfl
    (by simp [skipWhiteChars, isSpace]) (by simp [skipWhiteChars, isSpace, popGreater])
    (by simp [skipWhiteChars, isSpace])

end Scope

/-! ## Rich-lexer theorems -/

namespace Rich

theorem takeWhile_append_of {α : Type} (p : α → Bool) (w rest : List α)
    (hw : ∀ c ∈ w, p c = true)
    (hrest : ∀ r, rest.head? = some r → p r = false) :
    (w ++ rest).takeWhile p = w ∧ (w ++ rest).dropWhile p = rest := by
  induction w with
  | nil =>
    simp only [List.nil_append]
    cases rest with
    | nil => simp
    | cons r rs =>
      have hr := hrest r rfl
      simp [List.takeWhile, List.dropWhile, hr]
  | cons a w ih =>
    have ha := hw a (by simp)
    have ih2 := ih (fun c hc => hw c (by simp [hc]))
    simp [List.takeWhile, List.dropWhile, ha, ih2.1, ih2.2]

theorem isLetter_facts {c : Char} (h : isLetter c = true) :
    c ≠ '\n' ∧ isSpace c = false := by
  constructor
  · intro heq
    subst heq
    exact absurd h (by decide)
  · cases hsp : isSpace c with
    | false => rfl
    | true =>
      have hd : c = ' ' ∨ c = '\t' ∨ c = '\n' ∨ c = '\x0b' ∨ c = '\x0c' ∨ c = '\r' := by
        simpa [isSpace] using hsp
      rcases hd with rfl | rfl | rfl | rfl | rfl | rfl <;> exact absurd h (by decide)

theorem rich_word_branch (c : Char) (w rest : List Char) (k p : Nat)
    (hc : isLetter c = true)
    (hw : ∀ x ∈ c :: w, wordChar x = true)
    (hrest : ∀ r, rest.head? = some r → wordChar r = false) :
    next ⟨(c :: w) ++ rest, none, k, p⟩
      = .tok ⟨(wordSwitch (String.mk (c :: w))).1, k, (wordSwitch (String.mk (c :: w))).2⟩
          ⟨rest, none, k + (c :: w).length, k⟩ := by
  have h1 := isLetter_facts hc
  have h2 := takeWhile_append_of wordChar (c :: w) rest hw hrest
  simp only [List.cons_append] at h2
  simp [next, nextBody, h1.1, h1.2, hc, h2.1, h2.2]

/-- C3: the rich lexer's `Next` does not always return a token or an
error — on a buffer that ends mid-operator (here a lone `<` or `=`,
as left by inputs such as "a<" or "ab ="), `checkAlt` slices
`l.buf[:2]` past the end of the buffer and Go panics. -/
theorem rich_next_panics :
    next ⟨['<'], none, 1, 1⟩ = NextRes.panic ∧
    next ⟨['='], none, 3, 3⟩ = NextRes.panic := by
  constructor <;>
    simp [next, nextBody, checkAlt, isSpace, isLetter, isNumber, String.length]

/-- C9 counterexample: `in` is in the spec keyword list but lexes as a
WORD token carrying "in"; `ret` is not in the list but lexes as the
RETURN keyword token. -/
theorem keyword_table_counterexample :
    next ⟨"in".toList, none, 0, 0⟩
      = .tok ⟨.word, 0, some "in"⟩ ⟨[], none, 2, 0⟩ ∧
    next ⟨"ret".toList, none, 0, 0⟩
      = .tok ⟨.returnT, 0, none⟩ ⟨[], none, 3, 0⟩ := by
  constructor <;>
    simp [next, nextBody, wordSwitch, wordChar, isSpace, isLetter, isNumber,
      List.takeWhile, List.dropWhile]

/-- C9 (amended): a maximal letter-or-digit run starting with a letter
lexes through the keyword switch; the switch emits a keyword token
exactly for the strings of `keywordStrings` — the spec list minus `in`
plus the `ret` alias — and every other run becomes a WORD token
carrying the text. -/
theorem rich_keyword_lexing :
    (∀ (c : Char) (w rest : List Char) (k p : Nat),
      isLetter c = true → (∀ x ∈ c :: w, wordChar x = true) →
      (∀ r, rest.head? = some r → wordChar r = false) →
      next ⟨(c :: w) ++ rest, none, k, p⟩
        = .tok ⟨(wordSwitch (String.mk (c :: w))).1, k, (wordSwitch (String.mk (c :: w))).2⟩
            ⟨rest, none, k + (c :: w).length, k⟩) ∧
    (∀ s : String, (s ∈ keywordStrings → (wordSwitch s).1 ≠ TokenType.word) ∧
      (s ∉ keywordStrings → wordSwitch s = (TokenType.word, some s))) := by
  constructor
  · exact rich_word_branch
  · intro s
    constructor
    · intro hs
      fin_cases hs <;> decide
    · intro hs
      unfold wordSwitch
      split
      all_goals simp_all [keywordStrings]

/-- Witness for C9 (amended): lexing `var x` emits the `var` keyword
token and stops before the space. -/
theorem rich_keyword_lexing_witness :
    next ⟨"var x".toList, none, 0, 0⟩
      = .tok ⟨TokenType.varT, 0, none⟩ ⟨" x".toList, none, 3, 0⟩ := by
  have h := rich_keyword_lexing.1 'v' "ar".toList " x".toList 0 0 (by decide)
    (by intro x hx; fin_cases hx <;> decide)
    (by intro r hr; simp at hr; subst hr; decide)
  simpa using h

end Rich

end Have




